import Mathlib

/-!
A verification development for the GASAT solver core (`SATSolver/GA.py`).

Variables are indexed `1..n` as in DIMACS; a literal is a non-zero
integer, positive for the variable, negative for its negation.  A clause
is a list of literals and a formula a list of clauses.
-/

namespace GASAT

/-- Modelled from the spec: the `Individual` class (`SATSolver/individual.py`,
not present under `src/`).  An Individual is a possibly partial assignment:
`data` holds the truth value of variable `v` at position `v - 1`, and
`defined` holds the defined flag of variable `v` at position `v - 1`
(`false` = undefined).  Per the spec, §3 and §4.1. -/
structure Individual where
  data : List Bool
  defined : List Bool
deriving DecidableEq, Repr

namespace Individual

/-- Modelled from the spec: `get(v)` reads the truth value of variable `v`. -/
def get (X : Individual) (v : Nat) : Bool :=
  X.data.getD (v - 1) false

/-- Modelled from the spec: `get_defined(v)` reads the defined flag of `v`. -/
def get_defined (X : Individual) (v : Nat) : Bool :=
  X.defined.getD (v - 1) false

/-- Modelled from the spec: `set(v, b)` writes the bit and marks `v` defined. -/
def set (X : Individual) (v : Nat) (b : Bool) : Individual :=
  { data := X.data.set (v - 1) b, defined := X.defined.set (v - 1) true }

/-- Modelled from the spec: `flip(v)` toggles the bit and marks `v` defined. -/
def flip (X : Individual) (v : Nat) : Individual :=
  { data := X.data.set (v - 1) (!(X.data.getD (v - 1) false)),
    defined := X.defined.set (v - 1) true }

/-- Modelled from the spec: `set_defined(v)` marks `v` defined. -/
def set_defined (X : Individual) (v : Nat) : Individual :=
  { data := X.data, defined := X.defined.set (v - 1) true }

/-- Modelled from the spec: a freshly constructed crossover child
(`Individual(n, method, False)`): every variable undefined. -/
def blank (n : Nat) : Individual :=
  { data := List.replicate n false, defined := List.replicate n false }

end Individual

/-- `GA.sat` (GA.py 48–74): clause `c` is satisfied by `X`, reading only the
stored truth values: a positive literal `a` satisfies `c` when `get |a|` is
true, a negative literal when `get |a|` is false. -/
def sat (X : Individual) : List Int → Bool
  | [] => false
  | a :: rest =>
    if a > 0 then
      if X.get a.natAbs then true else sat X rest
    else
      if X.get a.natAbs = false then true else sat X rest

/-- `GA.sat_crossover` (GA.py 76–109): like `sat`, but the scan returns
`False` immediately at the first literal whose variable is undefined. -/
def sat_crossover (X : Individual) : List Int → Bool
  | [] => false
  | a :: rest =>
    if a > 0 then
      if X.get_defined a.natAbs = false then false
      else if X.get a.natAbs then true else sat_crossover X rest
    else
      if X.get_defined a.natAbs = false then false
      else if X.get a.natAbs = false then true else sat_crossover X rest

/-- `GA.evaluate` (GA.py 111–135), with the fitness cache elided: the number
of clauses of the formula not satisfied by `X`. -/
def evaluate (F : List (List Int)) (X : Individual) : Nat :=
  F.countP (fun c => !sat X c)

/-- `GA.improvement` (GA.py 137–157): fitness of `X` minus fitness of a copy
of `X` with variable `v` flipped (callers pass `abs` of a literal). -/
def improvement (F : List (List Int)) (X : Individual) (v : Nat) : Int :=
  (evaluate F X : Int) - (evaluate F (X.flip v) : Int)

/-- Modelled from the spec: `allocate(x, y)` of `Individual`
(`SATSolver/individual.py`, not present under `src/`): every variable still
undefined in `Z` receives the value of the fitter parent (ties in favour of
`x`), and afterwards every variable is defined (spec §4.1). -/
def Individual.allocate (F : List (List Int)) (Z x y : Individual) : Individual :=
  let p := if evaluate F x ≤ evaluate F y then x else y
  { data := (List.range Z.data.length).map
      (fun i => if Z.defined.getD i false then Z.data.getD i false else p.data.getD i false),
    defined := Z.defined.map (fun _ => true) }

/-- The combined gain scanned by `corrective_clause` (GA.py 175):
`improvement(x, |l|) + improvement(y, |l|)`. -/
def cc_gain (F : List (List Int)) (x y : Individual) (l : Int) : Int :=
  improvement F x l.natAbs + improvement F y l.natAbs

/-- The inner scan of `corrective_clause` (GA.py 170–178): starting from
`best_pos = 0`, `best_improvement = 0`, each literal whose combined gain is
`≥` the running best overwrites both. -/
def cc_scan (F : List (List Int)) (x y : Individual) (c : List Int) : Nat × Int :=
  c.foldl
    (fun acc l => if cc_gain F x y l ≥ acc.2 then (l.natAbs, cc_gain F x y l) else acc)
    (0, 0)

/-- One clause of the `corrective_clause` loop body (GA.py 169–183). -/
def cc_clause_step (F : List (List Int)) (x y : Individual)
    (z : Individual) (c : List Int) : Individual :=
  if ¬ sat x c ∧ ¬ sat y c ∧ ¬ sat_crossover z c then
    if (cc_scan F x y c).2 ≠ 0 then
      ((z.set (cc_scan F x y c).1 (x.get (cc_scan F x y c).1)).set_defined
        (cc_scan F x y c).1).flip (cc_scan F x y c).1
    else z
  else z

/-- `GA.corrective_clause` (GA.py 159–185): the CC crossover. -/
def corrective_clause (F : List (List Int)) (n : Nat) (x y : Individual) : Individual :=
  (F.foldl (cc_clause_step F x y) (Individual.blank n)).allocate F x y

/-- One clause of the `fluerent_and_ferland` loop body (GA.py 241–249).  The
source calls the parent as a function (`x(abs(clause[i]))`, and the negative
branch also mis-parenthesises `abs`), which raises a `TypeError` at the first
literal of any clause entering either branch; the error is modelled as
`none`. -/
def ff_clause_step (x y : Individual)
    (z : Option Individual) (c : List Int) : Option Individual :=
  match z with
  | none => none
  | some z =>
    if sat x c ∧ ¬ sat y c then (if c.isEmpty then some z else none)
    else if ¬ sat x c ∧ sat y c then (if c.isEmpty then some z else none)
    else some z

/-- `GA.fluerent_and_ferland` (GA.py 231–251): the FF crossover as written in
the source (with the `TypeError` branches modelled as `none`). -/
def fluerent_and_ferland (F : List (List Int)) (n : Nat) (x y : Individual) :
    Option Individual :=
  (F.foldl (ff_clause_step x y) (some (Individual.blank n))).map
    (fun z => z.allocate F x y)

/-- Python's `max(xs, key=f)`: the first element attaining the maximal key
(`None` models the `ValueError` on an empty sequence). -/
def pyMax (f : Int → Int) : List Int → Option Int
  | [] => none
  | a :: rest => some (rest.foldl (fun acc b => if f b > f acc then b else acc) a)

/-- Python's `max(xs, key=f)` over individuals, as used by `replace`. -/
def pyMaxInd (f : Individual → Nat) : List Individual → Option Individual
  | [] => none
  | a :: rest => some (rest.foldl (fun acc b => if f b > f acc then b else acc) a)

/-- The forbidden-flips map: an association list from variable index to the
age counter (`dict` insertion order preserved, as in Python). -/
def ForbiddenMap := List (Nat × Nat)

/-- `pos in d.keys()` for a variable index. -/
def fmMem (d : List (Nat × Nat)) (pos : Nat) : Bool :=
  d.any (fun kv => kv.1 == pos)

/-- `c in d.keys()` for a *signed literal* `c`, as written in the filters of
`check_flip` (GA.py 528) and the rec-loop (GA.py 386): the signed literal is
compared against the (non-negative) keys, so a negative literal never
matches. -/
def fmMemInt (d : List (Nat × Nat)) (l : Int) : Bool :=
  d.any (fun kv => (kv.1 : Int) == l)

/-- `d[pos]` lookup. -/
def fmGet (d : List (Nat × Nat)) (pos : Nat) : Option Nat :=
  (d.find? (fun kv => kv.1 == pos)).map Prod.snd

/-- `d[pos] = v` on an existing key. -/
def fmSet (d : List (Nat × Nat)) (pos v : Nat) : List (Nat × Nat) :=
  d.map (fun kv => if kv.1 == pos then (kv.1, v) else kv)

/-- `del d[pos]`. -/
def fmDel (d : List (Nat × Nat)) (pos : Nat) : List (Nat × Nat) :=
  d.filter (fun kv => kv.1 != pos)

/-- The eligible-literal filter and Python `max` shared by `check_flip`
(GA.py 528–532) and the inline rec-loop (GA.py 386–390): keep the literals
not in the forbidden map's keys, then take the gain-maximal one; the
`ValueError` on an empty sequence is re-raised unchanged (`none`). -/
def diversification_choose (F : List (List Int)) (X : Individual)
    (d : List (Nat × Nat)) (c : List Int) : Option Int :=
  pyMax (fun l => improvement F X l.natAbs)
    (c.filter (fun l => !fmMemInt d l))

/-- `GA.check_flip` (GA.py 519–548): choose the gain-maximal eligible literal
(propagating the `ValueError` as `none`); if its variable is already in the
forbidden map with count `< k`, increment the count and flip it; at count
`≥ k` delete it without flipping; otherwise insert it with count 1 and flip. -/
def check_flip (F : List (List Int)) (k : Nat) (X : Individual)
    (c : List Int) (d : List (Nat × Nat)) :
    Option (Individual × List (Nat × Nat)) :=
  match diversification_choose F X d c with
  | none => none
  | some value =>
    let pos := value.natAbs
    match fmGet d pos with
    | some cnt =>
      if cnt < k then some (X.flip pos, fmSet d pos (cnt + 1))
      else some (X, fmDel d pos)
    | none => some (X.flip pos, d ++ [(pos, 1)])

/-- `GA.replace` (GA.py 588–600): `weakest` is the fitness-maximal member of
the sub-population (Python `max`: first maximal); when
`not (evaluate(weakest) > evaluate(child))` the weakest is removed from the
population and the child appended (the `ValueError` of `max` on an empty
sub-population is modelled as `none`). -/
def replace (F : List (List Int)) (sub_population population : List Individual)
    (child : Individual) : Option (List Individual) :=
  match pyMaxInd (evaluate F) sub_population with
  | none => none
  | some weakest =>
    if ¬ (evaluate F weakest > evaluate F child) then
      some (population.erase weakest ++ [child])
    else
      some population

/-- The mutable state of `standard_tabu` (GA.py 295–406):
`best`, the working individual (`individual_in`), the tabu list and the flip
counter. -/
structure TabuState where
  best : Individual
  current : Individual
  tabu : List Nat
  num_flips : Nat
deriving DecidableEq, Repr

/-- The `while` loop of `standard_tabu` (GA.py 308–328) with
`is_diversification = False`, iteration-bounded by `fuel`.  The choice
function is an oracle over the whole state (the source's choice functions
read `self.tabu` and `self.best` besides the individual).  When the chosen
index is not in the tabu list the working individual is flipped, `best` is
updated on strict improvement and the flip counter incremented; nothing is
ever appended to the tabu list. -/
def standard_tabu_loop (F : List (List Int)) (max_flip : Nat)
    (choose : TabuState → Nat) : Nat → TabuState → TabuState
  | 0, s => s
  | fuel + 1, s =>
    if evaluate F s.best ≠ 0 ∧ s.num_flips < max_flip then
      if choose s ∉ s.tabu then
        standard_tabu_loop F max_flip choose fuel
          { best := if evaluate F (s.current.flip (choose s)) < evaluate F s.best
                    then s.current.flip (choose s) else s.best,
            current := s.current.flip (choose s), tabu := s.tabu,
            num_flips := s.num_flips + 1 }
      else
        standard_tabu_loop F max_flip choose fuel s
    else s

/-- `GA.standard_tabu` (GA.py 295–406), `is_diversification = False`: the
entry truncation `self.tabu = self.tabu[:self.tabu_list_length]`, then the
loop.  The Python function body contains no `return` statement, so its value
is `None` (the first component); the final loop state is the second. -/
def standard_tabu (F : List (List Int)) (max_flip tabu_list_length : Nat)
    (choose : TabuState → Nat) (fuel : Nat) (individual_in : Individual)
    (tabu0 : List Nat) : Option Individual × TabuState :=
  (none,
   standard_tabu_loop F max_flip choose fuel
     { best := individual_in, current := individual_in,
       tabu := tabu0.take tabu_list_length, num_flips := 0 })

/-- Fixture formula for the corrective-clause witness: the single clause
`(1, 2)`. -/
def w5F : List (List Int) := [[1, 2]]

/-- Fixture parent for the corrective-clause witness: both variables false,
complete. -/
def w5x : Individual := ⟨[false, false], [true, true]⟩

/-- Fixture child for the corrective-clause witness: fresh, fully
undefined. -/
def w5z : Individual := Individual.blank 2

/-- Fixture clause for the corrective-clause witness. -/
def w5c : List Int := [1, 2]

/-- A literal's defined flag under `X`. -/
def lit_defined (X : Individual) (a : Int) : Bool :=
  X.get_defined a.natAbs

/-- A literal's truth value under `X` (positive: the variable's value,
negative: its negation). -/
def lit_true (X : Individual) (a : Int) : Bool :=
  if a > 0 then X.get a.natAbs else !(X.get a.natAbs)

section Lemmas

/-- Reading a just-written cell. -/
lemma getD_set_self (l : List Bool) (i : Nat) (a : Bool) (h : i < l.length) :
    (l.set i a).getD i false = a := by
  simp [List.getD_eq_getElem?_getD, List.getElem?_set_self, h]

/-- Reading an untouched cell. -/
lemma getD_set_ne (l : List Bool) (i j : Nat) (a : Bool) (h : i ≠ j) :
    (l.set i a).getD j false = l.getD j false := by
  simp [List.getD_eq_getElem?_getD, List.getElem?_set_ne h]

/-- `sat` reads only the stored truth values, position by position. -/
lemma sat_congr_getD (X Y : Individual)
    (h : ∀ i, X.data.getD i false = Y.data.getD i false) :
    ∀ c, sat X c = sat Y c := by
  intro c
  induction c with
  | nil => rfl
  | cons a rest ih => simp only [sat, Individual.get, h, ih]

/-- `evaluate` reads only the stored truth values. -/
lemma evaluate_congr_getD (F : List (List Int)) (X Y : Individual)
    (h : ∀ i, X.data.getD i false = Y.data.getD i false) :
    evaluate F X = evaluate F Y := by
  unfold evaluate
  induction F with
  | nil => rfl
  | cons c F ih => simp [List.countP_cons, ih, sat_congr_getD X Y h c]

/-- Flipping the same variable twice restores every stored truth value. -/
lemma flip_flip_getD (X : Individual) (v : Nat) (j : Nat) :
    ((X.flip v).flip v).data.getD j false = X.data.getD j false := by
  have hdata : (X.flip v).data = X.data.set (v - 1) (!(X.data.getD (v - 1) false)) := rfl
  have hdata2 : ((X.flip v).flip v).data
      = (X.flip v).data.set (v - 1) (!((X.flip v).data.getD (v - 1) false)) := rfl
  by_cases hj : v - 1 = j
  · subst hj
    by_cases hl : v - 1 < X.data.length
    · rw [hdata2, getD_set_self _ _ _ (by rw [hdata]; simpa using hl), hdata,
        getD_set_self _ _ _ hl, Bool.not_not]
    · have hle := le_of_not_lt hl
      rw [hdata2, hdata, List.set_eq_of_length_le hle, List.set_eq_of_length_le hle]
  · rw [hdata2, getD_set_ne _ _ _ _ hj, hdata, getD_set_ne _ _ _ _ hj]

/-- The running maximum never drops below its initial value. -/
lemma init_le_foldl_max (g : Int → Int) :
    ∀ (c : List Int) (m0 : Int), m0 ≤ c.foldl (fun m l => max m (g l)) m0 := by
  intro c
  induction c with
  | nil => intro m0; exact le_refl m0
  | cons a rest ih =>
    intro m0
    rw [List.foldl_cons]
    exact le_trans (le_max_left m0 (g a)) (ih (max m0 (g a)))

/-- The running maximum is the initial value or is attained by a literal. -/
lemma foldl_max_attained (g : Int → Int) :
    ∀ (c : List Int) (m0 : Int),
      c.foldl (fun m l => max m (g l)) m0 = m0 ∨
        ∃ l ∈ c, g l = c.foldl (fun m l => max m (g l)) m0 := by
  intro c
  induction c with
  | nil => intro m0; exact Or.inl rfl
  | cons a rest ih =>
    intro m0
    rw [List.foldl_cons]
    rcases ih (max m0 (g a)) with h | ⟨l, hl, hgl⟩
    · by_cases hga : m0 ≤ g a
      · exact Or.inr ⟨a, List.mem_cons_self a rest,
          by rw [h]; exact (max_eq_right hga).symm⟩
      · left
        rw [h]
        exact max_eq_left (le_of_not_le hga)
    · exact Or.inr ⟨l, List.mem_cons_of_mem a hl, hgl⟩

/-- The best-position/best-gain fold of the corrective-clause scan: the gain
component is the running maximum of the gains over the initial value, and the
position component is the absolute value of the *last* literal attaining that
maximum (the `≥` comparison makes later literals win), or the initial
position when no literal attains it. -/
lemma foldl_best_spec (g : Int → Int) (c : List Int) :
    ∀ (p0 : Nat) (m0 : Int),
      c.foldl (fun acc l => if g l ≥ acc.2 then (l.natAbs, g l) else acc) (p0, m0) =
      ((c.reverse.find? (fun l => g l == c.foldl (fun m li => max m (g li)) m0)).elim
         p0 Int.natAbs,
       c.foldl (fun m li => max m (g li)) m0) := by
  induction c using List.reverseRecOn with
  | nil => intro p0 m0; simp
  | append_singleton c l ih =>
    intro p0 m0
    have hM : (c ++ [l]).foldl (fun m li => max m (g li)) m0
        = max (c.foldl (fun m li => max m (g li)) m0) (g l) := by
      rw [List.foldl_append]
      rfl
    have hL : (c ++ [l]).foldl
          (fun acc li => if g li ≥ acc.2 then (li.natAbs, g li) else acc) (p0, m0)
        = (if g l ≥ (c.foldl
              (fun acc li => if g li ≥ acc.2 then (li.natAbs, g li) else acc)
              (p0, m0)).2
           then (l.natAbs, g l)
           else c.foldl
              (fun acc li => if g li ≥ acc.2 then (li.natAbs, g li) else acc)
              (p0, m0)) := by
      rw [List.foldl_append]
      rfl
    have hrev : (c ++ [l]).reverse = l :: c.reverse := by simp
    rw [hL, ih p0 m0, hM, hrev]
    dsimp only
    by_cases h : c.foldl (fun m li => max m (g li)) m0 ≤ g l
    · rw [max_eq_right h, if_pos h,
        List.find?_cons_of_pos _ (by simp)]
      rfl
    · push_neg at h
      rw [max_eq_left h.le, if_neg (not_le.mpr h),
        List.find?_cons_of_neg _ (by simp [ne_of_lt h])]

/-- Effect of the corrective-clause update `set; set_defined; flip` on the
chosen in-range variable: the stored value ends up as the negation of the
written bit, and the variable ends up defined. -/
lemma set_defined_flip_effect (z : Individual) (v : Nat) (b : Bool)
    (h1 : 1 ≤ v) (h2 : v ≤ z.data.length) (h3 : v ≤ z.defined.length) :
    (((z.set v b).set_defined v).flip v).get v = !b ∧
    (((z.set v b).set_defined v).flip v).get_defined v = true := by
  have hi : v - 1 < z.data.length := by omega
  have hi2 : v - 1 < z.defined.length := by omega
  constructor
  · show ((z.data.set (v - 1) b).set (v - 1)
        (!((z.data.set (v - 1) b).getD (v - 1) false))).getD (v - 1) false = !b
    rw [getD_set_self _ _ _ (by simpa using hi), getD_set_self _ _ _ hi]
  · show ((((z.defined.set (v - 1) true).set (v - 1) true)).set (v - 1)
        true).getD (v - 1) false = true
    rw [getD_set_self]
    simpa using hi2

/-- One step of the `sat_crossover` scan, phrased with the literal
predicates: undefined aborts with `false`, a defined true literal succeeds,
a defined false literal continues. -/
lemma sat_crossover_cons (X : Individual) (a : Int) (rest : List Int) :
    sat_crossover X (a :: rest) =
      if lit_defined X a then
        (if lit_true X a then true else sat_crossover X rest)
      else false := by
  unfold lit_defined lit_true
  by_cases ha : a > 0 <;>
    cases hdef : X.get_defined a.natAbs <;>
      cases hval : X.get a.natAbs <;>
        simp [sat_crossover, ha, hdef, hval]

end Lemmas

/-- C1: `standard_tabu` (GA.py 295–406) is claimed to return the best-ever
Assignment, so that `gasat` (GA.py 635–638) binds a valid Assignment to
`child`.  The source function body contains no `return` statement, so for
every formula, parameter set, choice oracle, fuel, seed individual and
initial tabu list, the value the caller receives is `None`: the first
component of the embedded `standard_tabu` is always `none`. -/
theorem standard_tabu_returns_none (F : List (List Int))
    (max_flip tabu_list_length : Nat) (choose : TabuState → Nat) (fuel : Nat)
    (individual_in : Individual) (tabu0 : List Nat) :
    (standard_tabu F max_flip tabu_list_length choose fuel individual_in tabu0).1
      = none := rfl

/-- C2: `replace` (GA.py 588–600) is claimed to insert the child exactly when
`fitness(child) < fitness(weakest)`.  The source condition is inverted
(`if not evaluate(weakest) > evaluate(child)`), so on formula `((1))` a child
of fitness 1 replaces a weakest member of fitness 0 (first conjunct), while a
child of fitness 0 is discarded against a weakest member of fitness 1 and the
population is left unchanged (second conjunct). -/
theorem replace_comparison_inverted :
    (evaluate [[(1 : Int)]] (Individual.mk [true] [true]) = 0 ∧
     evaluate [[(1 : Int)]] (Individual.mk [false] [true]) = 1 ∧
     replace [[(1 : Int)]] [Individual.mk [true] [true]]
       [Individual.mk [true] [true]] (Individual.mk [false] [true])
       = some [Individual.mk [false] [true]]) ∧
    (replace [[(1 : Int)]] [Individual.mk [false] [true]]
       [Individual.mk [false] [true]] (Individual.mk [true] [true])
       = some [Individual.mk [false] [true]]) := by decide

/-- C5: in `corrective_clause` (GA.py 159–185), for a clause satisfied by
neither parent nor the partial child, the inner scan's best gain is the
running maximum (floored at the initial 0) of the combined gains
`improvement(x,·) + improvement(y,·)`; when that maximum is strictly
positive, the best position is the *last* literal attaining it (the `≥`
comparison lets later literals win ties) and the child is updated by
`set(best, x.get(best)); set_defined(best); flip(best)`, leaving `best`
defined with value `¬x.get(best)`; when the maximum is not strictly
positive, the child is left unchanged. -/
theorem corrective_clause_scan_update (F : List (List Int)) (x y z : Individual)
    (c : List Int)
    (hc : ¬ sat x c ∧ ¬ sat y c ∧ ¬ sat_crossover z c)
    (hrange : ∀ l ∈ c, 1 ≤ l.natAbs ∧ l.natAbs ≤ z.data.length ∧
        l.natAbs ≤ z.defined.length) :
    (cc_scan F x y c).2 = c.foldl (fun m l => max m (cc_gain F x y l)) 0 ∧
    (0 < c.foldl (fun m l => max m (cc_gain F x y l)) 0 →
      ∃ l, c.reverse.find?
          (fun li => cc_gain F x y li ==
            c.foldl (fun m lj => max m (cc_gain F x y lj)) 0) = some l ∧
        (cc_scan F x y c).1 = l.natAbs ∧
        cc_clause_step F x y z c
          = ((z.set l.natAbs (x.get l.natAbs)).set_defined l.natAbs).flip
              l.natAbs ∧
        (cc_clause_step F x y z c).get l.natAbs = !(x.get l.natAbs) ∧
        (cc_clause_step F x y z c).get_defined l.natAbs = true) ∧
    (c.foldl (fun m l => max m (cc_gain F x y l)) 0 ≤ 0 →
      cc_clause_step F x y z c = z) := by
  have hscan : cc_scan F x y c =
      ((c.reverse.find? (fun li => cc_gain F x y li ==
          c.foldl (fun m lj => max m (cc_gain F x y lj)) 0)).elim 0 Int.natAbs,
       c.foldl (fun m lj => max m (cc_gain F x y lj)) 0) :=
    foldl_best_spec (cc_gain F x y) c 0 0
  have h2 : (cc_scan F x y c).2
      = c.foldl (fun m lj => max m (cc_gain F x y lj)) 0 := by
    rw [hscan]
  refine ⟨h2, ?_, ?_⟩
  · intro hM
    rcases foldl_max_attained (cc_gain F x y) c 0 with h0 | ⟨l, hl, hgl⟩
    · omega
    · have hsome : (c.reverse.find? (fun li => cc_gain F x y li ==
          c.foldl (fun m lj => max m (cc_gain F x y lj)) 0)).isSome := by
        rw [List.find?_isSome]
        exact ⟨l, List.mem_reverse.mpr hl, by simp [hgl]⟩
      obtain ⟨lf, hlf⟩ := Option.isSome_iff_exists.mp hsome
      have hmem : lf ∈ c := List.mem_reverse.mp (List.mem_of_find?_eq_some hlf)
      have hpos1 : (cc_scan F x y c).1 = lf.natAbs := by
        rw [hscan, hlf]
        rfl
      have hne : (cc_scan F x y c).2 ≠ 0 := by
        rw [h2]
        omega
      have hstep : cc_clause_step F x y z c
          = ((z.set lf.natAbs (x.get lf.natAbs)).set_defined lf.natAbs).flip
              lf.natAbs := by
        unfold cc_clause_step
        rw [if_pos hc, if_pos hne, hpos1]
      obtain ⟨hr1, hr2, hr3⟩ := hrange lf hmem
      have heff := set_defined_flip_effect z lf.natAbs (x.get lf.natAbs) hr1 hr2 hr3
      exact ⟨lf, hlf, hpos1, hstep, by rw [hstep]; exact heff.1,
        by rw [hstep]; exact heff.2⟩
  · intro hM
    have h0 : c.foldl (fun m l => max m (cc_gain F x y l)) 0 = 0 :=
      le_antisymm hM (init_le_foldl_max (cc_gain F x y) c 0)
    have hz : ¬ ((cc_scan F x y c).2 ≠ 0) := by
      rw [h2, h0]
      simp
    unfold cc_clause_step
    rw [if_pos hc, if_neg hz]

/-- Witness for C5 on formula `((1, 2))` with both parents all-false and a
fresh child: both literals tie at combined gain 4, the scan keeps the later
literal 2, and the child ends with variable 2 defined and true. -/
theorem corrective_clause_scan_update_witness :
    (¬ sat w5x w5c ∧ ¬ sat w5x w5c ∧ ¬ sat_crossover w5z w5c) ∧
    (∀ l ∈ w5c, 1 ≤ l.natAbs ∧ l.natAbs ≤ w5z.data.length ∧
        l.natAbs ≤ w5z.defined.length) ∧
    ((cc_scan w5F w5x w5x w5c).2
        = w5c.foldl (fun m l => max m (cc_gain w5F w5x w5x l)) 0 ∧
     (0 < w5c.foldl (fun m l => max m (cc_gain w5F w5x w5x l)) 0 →
       ∃ l, w5c.reverse.find?
           (fun li => cc_gain w5F w5x w5x li ==
             w5c.foldl (fun m lj => max m (cc_gain w5F w5x w5x lj)) 0)
           = some l ∧
         (cc_scan w5F w5x w5x w5c).1 = l.natAbs ∧
         cc_clause_step w5F w5x w5x w5z w5c
           = ((w5z.set l.natAbs (w5x.get l.natAbs)).set_defined l.natAbs).flip
               l.natAbs ∧
         (cc_clause_step w5F w5x w5x w5z w5c).get l.natAbs
           = !(w5x.get l.natAbs) ∧
         (cc_clause_step w5F w5x w5x w5z w5c).get_defined l.natAbs = true) ∧
     (w5c.foldl (fun m l => max m (cc_gain w5F w5x w5x l)) 0 ≤ 0 →
       cc_clause_step w5F w5x w5x w5z w5c = w5z)) :=
  ⟨by decide, by decide,
   corrective_clause_scan_update w5F w5x w5x w5z w5c (by decide) (by decide)⟩

/-- C6: `fluerent_and_ferland` (GA.py 231–251) is claimed to copy the
satisfying parent's values into the child for every clause satisfied by
exactly one parent.  On formula `((1))` with `x = {1 ↦ true}` (satisfying)
and `y = {1 ↦ false}` (not satisfying), the clause enters the first branch
and the source raises a `TypeError` (it calls `x(abs(clause[i]))` as a
function): the embedding returns `none` instead of a child. -/
theorem fluerent_and_ferland_type_error :
    sat (Individual.mk [true] [true]) [(1 : Int)] = true ∧
    sat (Individual.mk [false] [true]) [(1 : Int)] = false ∧
    fluerent_and_ferland [[(1 : Int)]] 1 (Individual.mk [true] [true])
      (Individual.mk [false] [true]) = none := by decide

/-- C7: for `1 ≤ v ≤ n`, `improvement(X, v)` equals
`evaluate(X) − evaluate(flip(X, v))`; applied to the flipped individual it is
the negation; and it is positive exactly when the flip reduces the number of
unsatisfied clauses. -/
theorem improvement_flip_negation (F : List (List Int)) (X : Individual)
    (v : Nat) (h1 : 1 ≤ v) (h2 : v ≤ X.data.length) :
    improvement F X v = (evaluate F X : Int) - (evaluate F (X.flip v) : Int) ∧
    improvement F (X.flip v) v = - improvement F X v ∧
    (0 < improvement F X v ↔ evaluate F (X.flip v) < evaluate F X) := by
  refine ⟨rfl, ?_, ?_⟩
  · have hE : evaluate F ((X.flip v).flip v) = evaluate F X :=
      evaluate_congr_getD F _ _ (fun j => flip_flip_getD X v j)
    unfold improvement
    rw [hE]
    ring
  · unfold improvement
    omega

/-- Witness for C7 at `F = ((1)(−1))`, `X = {1 ↦ false}`, `v = 1`. -/
theorem improvement_flip_negation_witness :
    1 ≤ 1 ∧ 1 ≤ (Individual.mk [false] [true]).data.length ∧
    (improvement [[(1 : Int)], [(-1 : Int)]] (Individual.mk [false] [true]) 1
        = (evaluate [[(1 : Int)], [(-1 : Int)]] (Individual.mk [false] [true]) : Int)
          - (evaluate [[(1 : Int)], [(-1 : Int)]]
              ((Individual.mk [false] [true]).flip 1) : Int) ∧
     improvement [[(1 : Int)], [(-1 : Int)]]
        ((Individual.mk [false] [true]).flip 1) 1
        = - improvement [[(1 : Int)], [(-1 : Int)]] (Individual.mk [false] [true]) 1 ∧
     (0 < improvement [[(1 : Int)], [(-1 : Int)]] (Individual.mk [false] [true]) 1 ↔
      evaluate [[(1 : Int)], [(-1 : Int)]] ((Individual.mk [false] [true]).flip 1)
        < evaluate [[(1 : Int)], [(-1 : Int)]] (Individual.mk [false] [true]))) :=
  ⟨by decide, by decide,
   improvement_flip_negation [[(1 : Int)], [(-1 : Int)]]
     (Individual.mk [false] [true]) 1 (by decide) (by decide)⟩

/-- C8: the diversification machinery is claimed never to flip a variable
that is currently in the forbidden-flips map.  `check_flip` (GA.py 519–548)
filters *signed literals* against the map's keys, so a negated literal of a
forbidden variable survives the filter; when it is chosen, the branch
`if pos in iteration_dict` with count `< k` increments the count *and flips
the variable*.  Concretely, with clause `(-3)`, map `{3: 0}` and `k = 2`,
variable 3 is in the map yet `check_flip` flips it. -/
theorem check_flip_flips_forbidden_variable :
    fmMem [(3, 0)] 3 = true ∧
    check_flip [] 2 (Individual.mk [true, true, true] [true, true, true])
      [(-3 : Int)] [(3, 0)]
      = some ((Individual.mk [true, true, true] [true, true, true]).flip 3,
              [(3, 1)]) := by decide

/-- C3 counterexample: the claim says an undefined literal merely fails to
satisfy the clause and scanning continues, equivalently that
`sat_crossover(Z, c)` is true iff some defined literal of `c` evaluates
true.  With `Z = {1 undefined/false, 2 defined/true}` and clause `(1, 2)`,
literal 2 is defined and evaluates true, yet `sat_crossover` returns false:
the scan aborts at the undefined literal 1 (GA.py 95–96). -/
theorem sat_crossover_undefined_aborts_scan :
    sat_crossover (Individual.mk [false, true] [false, true])
      [(1 : Int), 2] = false ∧
    (2 : Int) ∈ [(1 : Int), 2] ∧
    lit_defined (Individual.mk [false, true] [false, true]) 2 = true ∧
    lit_true (Individual.mk [false, true] [false, true]) 2 = true := by decide

/-- C3 amended: `sat_crossover(Z, c)` scans left to right and returns false
at the first literal whose variable is undefined; it is true iff the clause
splits as `pre ++ a :: post` where every literal of `pre` is defined and
evaluates false under `Z` and `a` is defined and evaluates true. -/
theorem sat_crossover_iff_defined_scan (X : Individual) (c : List Int) :
    sat_crossover X c = true ↔
      ∃ pre a post, c = pre ++ a :: post ∧
        (∀ b ∈ pre, lit_defined X b = true ∧ lit_true X b = false) ∧
        lit_defined X a = true ∧ lit_true X a = true := by
  induction c with
  | nil =>
    simp only [sat_crossover, Bool.false_eq_true, false_iff]
    rintro ⟨pre, a, post, hsplit, -⟩
    cases pre <;> simp at hsplit
  | cons a rest ih =>
    rw [sat_crossover_cons]
    by_cases hd : lit_defined X a
    · by_cases ht : lit_true X a
      · simp only [hd, ht, if_true]
        constructor
        · intro _
          exact ⟨[], a, rest, rfl, by simp, hd, ht⟩
        · intro _
          trivial
      · have ht' : lit_true X a = false := by
          revert ht; cases lit_true X a <;> simp
        rw [if_pos hd, if_neg ht, ih]
        constructor
        · rintro ⟨pre, b, post, rfl, hpre, hb1, hb2⟩
          refine ⟨a :: pre, b, post, rfl, ?_, hb1, hb2⟩
          intro x hx
          rcases List.mem_cons.mp hx with rfl | hx
          · exact ⟨hd, ht'⟩
          · exact hpre x hx
        · rintro ⟨pre, b, post, hsplit, hpre, hb1, hb2⟩
          cases pre with
          | nil =>
            simp only [List.nil_append, List.cons.injEq] at hsplit
            obtain ⟨rfl, rfl⟩ := hsplit
            exact absurd hb2 ht
          | cons p pre' =>
            simp only [List.cons_append, List.cons.injEq] at hsplit
            obtain ⟨rfl, rfl⟩ := hsplit
            exact ⟨pre', b, post, rfl,
              fun x hx => hpre x (List.mem_cons_of_mem _ hx), hb1, hb2⟩
    · rw [if_neg hd]
      simp only [Bool.false_eq_true, false_iff]
      rintro ⟨pre, b, post, hsplit, hpre, hb1, hb2⟩
      cases pre with
      | nil =>
        simp only [List.nil_append, List.cons.injEq] at hsplit
        obtain ⟨rfl, -⟩ := hsplit
        exact hd hb1
      | cons p pre' =>
        simp only [List.cons_append, List.cons.injEq] at hsplit
        obtain ⟨rfl, -⟩ := hsplit
        exact hd (hpre a (by simp)).1

/-- C4: in a non-tabu iteration, `standard_tabu` (GA.py 305–316) is claimed
to flip `p`, append `p` to the tabu list (FIFO eviction at capacity) and
increment the flip counter.  The loop body contains no append: the first
conjunct shows the tabu list component of the loop state is preserved by any
number of iterations, for every formula, cap, choice oracle and start state;
the second shows a concrete non-tabu iteration (`F = ((1))`, seed
`{1 ↦ false}`, `p = 1`) that flips the variable and increments the counter
while the tabu list stays empty. -/
theorem standard_tabu_no_append :
    (∀ (F : List (List Int)) (max_flip : Nat) (choose : TabuState → Nat)
       (fuel : Nat) (s : TabuState),
        (standard_tabu_loop F max_flip choose fuel s).tabu = s.tabu) ∧
    ((standard_tabu [[(1 : Int)]] 10 5 (fun _ => 1) 5
        (Individual.mk [false] [true]) []).2.num_flips = 1 ∧
     (standard_tabu [[(1 : Int)]] 10 5 (fun _ => 1) 5
        (Individual.mk [false] [true]) []).2.current
        = Individual.mk [true] [true] ∧
     (standard_tabu [[(1 : Int)]] 10 5 (fun _ => 1) 5
        (Individual.mk [false] [true]) []).2.tabu = []) := by
  constructor
  · intro F max_flip choose fuel
    induction fuel with
    | zero => intro s; rfl
    | succ n ih =>
      intro s
      unfold standard_tabu_loop
      split
      · split
        · exact ih _
        · exact ih s
      · rfl
  · exact ⟨by decide, by decide, by decide⟩

/-- C9: in the diversification choose-and-flip, when the literals of the
clause not in the forbidden map form an empty list, the `ValueError` of
Python's `max` is propagated unchanged (`none`) and is never recovered
silently: `check_flip` (GA.py 519–548) and its selection step
`diversification_choose` (the same filter-and-max as the inline rec-loop,
GA.py 386–390) produce the error exactly when the eligible set is empty. -/
theorem check_flip_propagates_empty_max (F : List (List Int)) (k : Nat)
    (X : Individual) (c : List Int) (d : List (Nat × Nat)) :
    (diversification_choose F X d c = none ↔
       c.filter (fun l => !fmMemInt d l) = []) ∧
    (check_flip F k X c d = none ↔
       c.filter (fun l => !fmMemInt d l) = []) := by
  have hdc : diversification_choose F X d c = none ↔
      c.filter (fun l => !fmMemInt d l) = [] := by
    unfold diversification_choose pyMax
    cases c.filter (fun l => !fmMemInt d l) <;> simp
  refine ⟨hdc, ?_⟩
  rw [← hdc]
  unfold check_flip
  cases hv : diversification_choose F X d c with
  | none => simp
  | some v =>
    simp only
    constructor
    · intro h
      exfalso
      cases hg : fmGet d v.natAbs with
      | none =>
        rw [hg] at h
        simp at h
      | some cnt =>
        rw [hg] at h
        by_cases hk : cnt < k <;> simp [hk] at h
    · intro h
      exact Option.noConfusion h

/-- C10: `sat` (GA.py 48–74) reads only the stored truth values: two
individuals with the same `data` but arbitrary `defined` flags satisfy
exactly the same clauses. -/
theorem sat_ignores_defined_flags (c : List Int) (X Y : Individual)
    (h : X.data = Y.data) : sat X c = sat Y c := by
  induction c with
  | nil => rfl
  | cons a rest ih => simp only [sat, Individual.get, h, ih]

/-- Witness for C10: a complete and a fully undefined individual with the
same values agree on the clause `(2, −2)`. -/
theorem sat_ignores_defined_flags_witness :
    (Individual.mk [true, false] [true, true]).data
      = (Individual.mk [true, false] [false, false]).data ∧
    sat (Individual.mk [true, false] [true, true]) [(2 : Int), -1]
      = sat (Individual.mk [true, false] [false, false]) [(2 : Int), -1] :=
  ⟨rfl, sat_ignores_defined_flags [(2 : Int), -1] _ _ rfl⟩

end GASAT
